import Mathlib

/-!
Shallow embedding of the word-batch validation / submission / listing logic of
the `add10wordsserver` repository.

The repository contains two versions of the words router:
  * `src/routes/words.js`      — referred to below as "v1": a shared
    `validateWords` helper, a `POST /validate` endpoint, a `POST /` submit
    endpoint and a `GET /` listing endpoint;
  * `backend/routes/words.js`  — referred to below as "v2": a single
    `POST /` endpoint that either validates (`?action=validate`) or submits,
    plus the same `GET /` listing endpoint.  The server entry point
    (`backend/index.js`) mounts this router.

The Word Store is MongoDB, modelled as a list of records in insertion order
with a unique index on `wordLower` (declared in `models/Word.js`).
`Word.insertMany(docs, { ordered: true })` is modelled with MongoDB's
documented ordered-insert semantics: documents are inserted one at a time,
the first uniqueness violation aborts the remaining inserts, and documents
inserted before the violation are NOT rolled back.

Request handlers perform one store read (`Word.find`) and, on the submit
path, one store write (`Word.insertMany`).  Because another request may
commit between those two awaits, the handlers below take two store
arguments: `store` — the collection contents when the pre-check `find`
runs — and `storeIns` — the contents when `insertMany` runs.  A race-free
(sequential) request is the instance `storeIns = store`.
-/

namespace AddTen

/-- JavaScript values that can appear as elements of the JSON `words` array
(`express.json` bodies can contain strings, numbers, booleans and null;
`undefined` models a missing element). -/
inductive JSVal where
  | str (s : String)
  | num (n : Int)
  | bool (b : Bool)
  | nullv
  | undef
deriving Repr, DecidableEq

/-- JavaScript truthiness of a `JSVal` ("" , 0, false, null, undefined are
falsy). -/
def jsTruthy : JSVal → Bool
  | .str s => s ≠ ""
  | .num n => n ≠ 0
  | .bool b => b
  | .nullv => false
  | .undef => false

/-- JavaScript `String(v)` coercion for the modelled values. -/
def jsToString : JSVal → String
  | .str s => s
  | .num n => toString n
  | .bool b => if b then "true" else "false"
  | .nullv => "null"
  | .undef => "undefined"

/-- Model of `.toLowerCase()`: lowercase every character.  This is exactly
what `String.toLower` does (`String.map Char.toLower`), written through the
character list so that list lemmas apply. -/
def jsLower (s : String) : String := ⟨s.data.map Char.toLower⟩

/-- Model of `.trim()`: drop leading and trailing whitespace (written on the
character list so that it evaluates structurally). -/
def jsTrim (s : String) : String :=
  ⟨((s.data.dropWhile Char.isWhitespace).reverse.dropWhile
      Char.isWhitespace).reverse⟩

/-- Model of `String(s || "")`: a falsy element is replaced by the empty
string before coercion; a truthy one is coerced to text. -/
def coerceOrEmpty (v : JSVal) : String :=
  if jsTruthy v then jsToString v else ""

/-- One document of the `words` collection (`models/Word.js`).  MongoDB
`_id`s are outside the model; `addedAt` is an abstract timestamp. -/
structure WordRec where
  userId : String
  word : String
  wordLower : String
  addedAt : Nat
  learned : Bool
  notes : String
deriving Repr, DecidableEq

/-- One document of the `users` collection (`models/User.js`), restricted to
the fields the words router reads.  A missing `name` is modelled as `""`
(`u.name?.trim() || u.email` treats both identically). -/
structure UserRec where
  id : String
  name : String
  email : String
deriving Repr, DecidableEq

/-- The conflict report `{ db, inBatch }` produced by `conflictsObj`. -/
structure Conflicts where
  db : List String
  inBatch : List String
deriving Repr, DecidableEq

/-- A JSON response of the router: HTTP status plus the body fields any of
the handlers ever set (absent fields are `none`). -/
structure Resp where
  status : Nat
  ok : Option Bool
  error : Option String
  message : Option String
  conflicts : Option Conflicts
  added : Option Nat
deriving Repr, DecidableEq

/-- First-occurrence deduplication with an explicit set of already-seen
elements; the model of filling a JS `Set` (or the key set of a `Map`) by
insertion — JS `Set`/`Map` preserve insertion order. -/
def dedupFirstAux (seen : List String) : List String → List String
  | [] => []
  | x :: xs =>
    if x ∈ seen then dedupFirstAux seen xs
    else x :: dedupFirstAux (x :: seen) xs

/-- First-occurrence deduplication; the model of `Array.from(new Set(l))`
and of iterating a `Map` built by insertion. -/
def dedupFirst (l : List String) : List String := dedupFirstAux [] l

/-- `conflictsObj(db, inBatch)` from both routers: lowercase each entry and
deduplicate each of the two lists. -/
def conflictsObj (db inBatch : List String) : Conflicts :=
  ⟨dedupFirst (db.map jsLower), dedupFirst (inBatch.map jsLower)⟩

/-- `normalizeList(items)` from both routers.  `none` models a body whose
`words` is not an array (`Array.isArray` fails): `cleaned` is then `[]`.
Each element goes through `String(s || "").trim()` and empty results are
dropped by `.filter(Boolean)`; `lowers` maps the cleaned entries through
`.toLowerCase()`. -/
def normalizeList (items : Option (List JSVal)) : List String × List String :=
  let cleaned := match items with
    | some l => (l.map (fun s => jsTrim (coerceOrEmpty s))).filter (fun s => s ≠ "")
    | none => []
  (cleaned, cleaned.map jsLower)

/-- The in-batch duplicate detection of both routers: build a count `Map`
keyed by normalized form (keys in first-occurrence order) and keep the keys
whose count exceeds 1. -/
def inBatchDups (lowers : List String) : List String :=
  (dedupFirst lowers).filter (fun l => lowers.count l > 1)

/-- The store-conflict query of both routers:
`Word.find({ wordLower: { $in: lowers } })` followed by
`[...new Set(found.map(d => d.wordLower.toLowerCase()))]`. -/
def existingLowers (store : List WordRec) (lowers : List String) : List String :=
  dedupFirst ((store.filter (fun r => r.wordLower ∈ lowers)).map
    (fun d => jsLower d.wordLower))

/-- Result of v1's `validateWords`, mirroring the three JS return objects. -/
inductive VWResult where
  | invalid (status : Nat) (error : String) (conflicts : Conflicts)
  | conflict (conflicts : Conflicts)
  | valid (cleaned lowers : List String) (conflicts : Conflicts)
deriving Repr, DecidableEq

/-- The conflict report carried by a `validateWords` result. -/
def VWResult.conflicts : VWResult → Conflicts
  | .invalid _ _ c => c
  | .conflict c => c
  | .valid _ _ c => c

/-- The count-mismatch message `Exactly 10 words required. Received N.`. -/
def countMsg (n : Nat) : String :=
  "Exactly 10 words required. Received " ++ toString n ++ "."

/-- `validateWords(words)` from v1 (`src/routes/words.js`), with the store
contents at the time of its `Word.find` made explicit. -/
def validateWords (store : List WordRec) (words : Option (List JSVal)) : VWResult :=
  let p := normalizeList words
  if p.1.length ≠ 10 then
    .invalid 400 (countMsg p.1.length) (conflictsObj [] [])
  else
    let inBatch := inBatchDups p.2
    let existing := existingLowers store p.2
    if existing.length = 0 ∧ inBatch.length = 0 then
      .valid p.1 p.2 (conflictsObj [] [])
    else
      .conflict (conflictsObj existing inBatch)

/-- The documents built by the submit path:
`cleaned.map(w => ({ userId, word: w, wordLower: w.toLowerCase(), addedAt }))`
(`learned`/`notes` take their schema defaults). -/
def mkDocs (user : String) (now : Nat) (cleaned : List String) : List WordRec :=
  cleaned.map (fun w => ⟨user, w, jsLower w, now, false, ""⟩)

/-- `Word.insertMany(docs, { ordered: true })` against a collection with the
unique index on `wordLower`: insert one document at a time, abort at the
first duplicate.  Returns the resulting collection and `some n` (the
inserted count, on success) or `none` (duplicate-key error E11000).
Documents inserted before the failure remain in the collection. -/
def insertManyOrdered : List WordRec → List WordRec → List WordRec × Option Nat
  | store, [] => (store, some 0)
  | store, d :: ds =>
    if store.any (fun r => r.wordLower = d.wordLower) then (store, none)
    else
      match insertManyOrdered (store ++ [d]) ds with
      | (s', some n) => (s', some (n + 1))
      | (s', none) => (s', none)

/-- The prefix of `docs` that `insertManyOrdered` actually inserts before
stopping (all of `docs` when no duplicate occurs). -/
def insertablePrefix : List WordRec → List WordRec → List WordRec
  | _, [] => []
  | store, d :: ds =>
    if store.any (fun r => r.wordLower = d.wordLower) then []
    else d :: insertablePrefix (store ++ [d]) ds

/-- v1 `POST /validate`: reads the store, never writes. -/
def postValidate_v1 (store : List WordRec) (words : Option (List JSVal)) : Resp :=
  match validateWords store words with
  | .invalid st err c => ⟨st, some false, some err, none, some c, none⟩
  | .conflict c => ⟨200, some false, none, none, some c, none⟩
  | .valid _ _ c => ⟨200, some true, none, some "No conflicts", some c, none⟩

/-- v1 `POST /` (submit).  `store` is the collection seen by the pre-check
`find` inside `validateWords`; `storeIns` the collection when `insertMany`
runs.  Returns the response and the final collection contents. -/
def postWords_v1 (user : String) (now : Nat) (store storeIns : List WordRec)
    (words : Option (List JSVal)) : Resp × List WordRec :=
  match validateWords store words with
  | .valid cleaned _ _ =>
    let docs := mkDocs user now cleaned
    (match insertManyOrdered storeIns docs with
     | (s', some n) => (⟨200, none, none, none, none, some n⟩, s')
     | (s', none) =>
       (⟨409, none, some "One or more words already exist", none, none, none⟩, s'))
  | .invalid _ _ c =>
    (⟨409, none, some "Conflicts found. Fix duplicates before submitting.",
      none, some c, none⟩, storeIns)
  | .conflict c =>
    (⟨409, none, some "Conflicts found. Fix duplicates before submitting.",
      none, some c, none⟩, storeIns)

/-- v2 `POST /` (`backend/routes/words.js`): validates when
`action.toLowerCase() == "validate"`, submits otherwise.  A non-array body
is modelled by `body = none` (`Array.isArray(req.body?.words) ? ... : []`).
On a duplicate-key error the handler re-queries
`Word.find({ wordLower: { $in: lowers } })` against the post-insert
collection and answers 409 with `conflictsObj(nowExisting.map(wordLower), [])`. -/
def postWords_v2 (action user : String) (now : Nat) (store storeIns : List WordRec)
    (body : Option (List JSVal)) : Resp × List WordRec :=
  let p := normalizeList (some (body.getD []))
  if p.1.length ≠ 10 then
    (⟨400, none, some (countMsg p.1.length), none, some (conflictsObj [] []), none⟩,
      storeIns)
  else
    let inBatch := inBatchDups p.2
    let existing := existingLowers store p.2
    if jsLower action = "validate" then
      if existing.length = 0 ∧ inBatch.length = 0 then
        (⟨200, some true, none, some "No conflicts", some (conflictsObj [] []), none⟩,
          storeIns)
      else
        (⟨200, some false, none, some "Conflicts found",
          some (conflictsObj existing inBatch), none⟩, storeIns)
    else
      if existing.length > 0 ∨ inBatch.length > 0 then
        (⟨409, none, some "Conflicts found. Fix duplicates before submitting.",
          none, some (conflictsObj existing inBatch), none⟩, storeIns)
      else
        let docs := mkDocs user now p.1
        match insertManyOrdered storeIns docs with
        | (s', some n) => (⟨200, none, none, none, none, some n⟩, s')
        | (s', none) =>
          let nowExisting := s'.filter (fun r => r.wordLower ∈ p.2)
          (⟨409, none, some "One or more words already exist", none,
            some (conflictsObj (nowExisting.map (fun d => d.wordLower)) []), none⟩, s')

/-- Does the character list start with `pat`? (helper for substring search). -/
def listStartsWith : List Char → List Char → Bool
  | _, [] => true
  | [], _ :: _ => false
  | h :: hs, p :: ps => h == p && listStartsWith hs ps

/-- Does `hay` contain `pat` as a contiguous substring? -/
def hasSub : List Char → List Char → Bool
  | [], pat => listStartsWith [] pat
  | h :: t, pat => listStartsWith (h :: t) pat || hasSub t pat

/-- Model of the filter `{ $regex: q.toLowerCase(), $options: "i" }` on a
string field: case-insensitive containment of `q` (regex metacharacters are
outside the model; `q` is treated literally). -/
def strContainsCI (hay pat : String) : Bool :=
  hasSub (jsLower hay).data (jsLower pat).data

/-- The four sort specifications the `GET /` handler can build. -/
inductive SortSpec where
  | dateDesc
  | dateAsc
  | alphaAsc
  | alphaDesc
deriving Repr, DecidableEq

/-- `let sortSpec = { addedAt: -1 }; if (sort === "date-asc") ...` — any
unrecognized key leaves the default newest-first spec. -/
def resolveSort (sort : String) : SortSpec :=
  if sort = "date-asc" then .dateAsc
  else if sort = "alpha-asc" then .alphaAsc
  else if sort = "alpha-desc" then .alphaDesc
  else .dateDesc

/-- The comparator (as a `Bool`-valued "may come before") that each sort
specification induces on word records. -/
def sortLE : SortSpec → WordRec → WordRec → Bool
  | .dateDesc, a, b => b.addedAt ≤ a.addedAt
  | .dateAsc, a, b => a.addedAt ≤ b.addedAt
  | .alphaAsc, a, b => a.wordLower ≤ b.wordLower
  | .alphaDesc, a, b => b.wordLower ≤ a.wordLower

/-- Insert `x` into `l` before the first element it may precede. -/
def insertSorted {α : Type} (le : α → α → Bool) (x : α) : List α → List α
  | [] => [x]
  | y :: ys => if le x y then x :: y :: ys else y :: insertSorted le x ys

/-- Insertion sort; the model of the store's `.sort(sortSpec)` (any order
consistent with the comparator — MongoDB promises nothing more for ties). -/
def sortBy {α : Type} (le : α → α → Bool) : List α → List α
  | [] => []
  | x :: xs => insertSorted le x (sortBy le xs)

/-- `mineFilter`: owner match, optional `addedAt` range (`from` start of
day, `to` modelled as the `T23:59:59` end-of-day instant), optional
substring filter on `wordLower`. -/
def mineFilterPred (u : String) (fromD toD : Option Nat) (q : String)
    (r : WordRec) : Bool :=
  r.userId == u
  && (match fromD with | some f => f ≤ r.addedAt | none => true)
  && (match toD with | some t => r.addedAt ≤ t | none => true)
  && (q == "" || strContainsCI r.wordLower q)

/-- `globalFilter`: only the optional substring filter — the date range is
NOT applied to the global collection in either version of the router. -/
def globalFilterPred (q : String) (r : WordRec) : Bool :=
  q == "" || strContainsCI r.wordLower q

/-- One annotated record of the `GET /` response (the `_id` string and ISO
formatting are outside the model). -/
structure Ann where
  word : String
  wordLower : String
  userId : String
  addedAt : Nat
  ownerName : String
deriving Repr, DecidableEq

/-- The owner-label table: `Object.fromEntries(owners.map(u => [id,
u.name?.trim() || u.email]))` looked up for one id; `""` means the entry is
absent or falsy, which the caller turns into "Unknown".  User `_id`s are
unique, so the first match is the entry. -/
def ownerEntry (owners : List UserRec) (uid : String) : String :=
  match owners.find? (fun usr => usr.id = uid) with
  | some usr => if jsTrim usr.name = "" then usr.email else jsTrim usr.name
  | none => ""

/-- One step of the handlers' `attachOwner` mapping:
`ownerName: ownerMap[String(d.userId)] || "Unknown"`. -/
def attachOwner (owners : List UserRec) (d : WordRec) : Ann :=
  { word := d.word, wordLower := d.wordLower, userId := d.userId,
    addedAt := d.addedAt,
    ownerName := if ownerEntry owners d.userId = "" then "Unknown"
      else ownerEntry owners d.userId }

/-- One of the two queries of `GET /`:
`Word.find(filter).sort(sortSpec).limit(cap)`. -/
def getWordsDocs (spec : SortSpec) (pred : WordRec → Bool) (cap : Nat)
    (store : List WordRec) : List WordRec :=
  (sortBy (sortLE spec) (store.filter pred)).take cap

/-- `GET /` from both versions of the router: two independently filtered,
identically sorted, independently capped collections, annotated with owner
labels resolved from the users matching the global collection's owner ids
(v2 skips the user query when `userIds` is empty, which reads the same as
querying an empty id set). -/
def getWords (users : List UserRec) (store : List WordRec) (u : String)
    (sortP : Option String) (fromD toD : Option Nat) (q : String) :
    List Ann × List Ann :=
  let spec := resolveSort (sortP.getD "date-desc")
  let mineDocs := getWordsDocs spec (mineFilterPred u fromD toD q) 2000 store
  let allDocs := getWordsDocs spec (globalFilterPred q) 5000 store
  let userIds := dedupFirst ((allDocs.map (fun w => w.userId)).filter
    (fun s => s ≠ ""))
  let owners := users.filter (fun usr => usr.id ∈ userIds)
  (mineDocs.map (attachOwner owners), allDocs.map (attachOwner owners))

/-- The comparator induced on annotated records (same keys as `sortLE`,
read off the copied fields). -/
def annLE : SortSpec → Ann → Ann → Bool
  | .dateDesc, a, b => b.addedAt ≤ a.addedAt
  | .dateAsc, a, b => a.addedAt ≤ b.addedAt
  | .alphaAsc, a, b => a.wordLower ≤ b.wordLower
  | .alphaDesc, a, b => b.wordLower ≤ a.wordLower

/-- Modelled from the spec (for comparison with `normalizeList` only):
"coerce each to text, trim surrounding whitespace, discard entries that
become empty after trimming", with the same parallel lowercased list. -/
def specNormalize (items : List JSVal) : List String × List String :=
  let cleaned := (items.map (fun v => jsTrim (jsToString v))).filter
    (fun s => s ≠ "")
  (cleaned, cleaned.map jsLower)

/-! ### Concrete scenarios used by witnesses and counterexamples -/

/-- Shorthand for a string element of a batch. -/
def W (s : String) : JSVal := .str s

/-- Concrete scenario A of the specification: ten unique words. -/
def tenWords : List JSVal :=
  [W "Cat", W "Dog", W "Sun", W "Sky", W "Red", W "Blue", W "Fast", W "Slow",
   W "Up", W "Down"]

/-- Concrete scenario B of the specification: nine words after cleaning. -/
def nineWords : List JSVal :=
  [W "Cat", W "Dog", W "Sun", W "Sky", W "Red", W "Blue", W "Fast", W "Slow",
   W "Up"]

/-- Ten unique words with "Dog" before "Cat" (used for race scenarios). -/
def raceWords : List JSVal :=
  [W "Dog", W "Cat", W "Sun", W "Sky", W "Red", W "Blue", W "Fast", W "Slow",
   W "Up", W "Down"]

/-- Ten cleaned entries containing "cat" twice. -/
def dupWords : List JSVal :=
  [W "cat", W "cat", W "Sun", W "Sky", W "Red", W "Blue", W "Fast", W "Slow",
   W "Up", W "Down"]

/-- A store record owned by another user with normalized text "cat". -/
def catRec : WordRec := ⟨"u2", "cat", "cat", 5, false, ""⟩

/-- A store record owned by "u1" submitted at time 5. -/
def oldRec : WordRec := ⟨"u1", "Old", "old", 5, false, ""⟩

/-! ### Character / string lemmas -/

theorem charOfNat_toNat (m : Nat) (hm : m < 55296) : (Char.ofNat m).toNat = m := by
  have h : m.isValidChar := Or.inl hm
  rw [Char.ofNat, dif_pos h]
  rfl

theorem charToLower_idem (c : Char) : c.toLower.toLower = c.toLower := by
  unfold Char.toLower
  by_cases h1 : c.toNat ≥ 65 ∧ c.toNat ≤ 90
  · rw [if_pos h1]
    have h2 := charOfNat_toNat (c.toNat + 32) (by omega)
    rw [if_neg (by omega)]
  · rw [if_neg h1, if_neg h1]

theorem jsLower_idem (s : String) : jsLower (jsLower s) = jsLower s := by
  unfold jsLower
  refine congrArg String.mk ?_
  show (s.data.map Char.toLower).map Char.toLower = s.data.map Char.toLower
  rw [List.map_map]
  exact List.map_congr_left fun a _ => charToLower_idem a

/-! ### Deduplication lemmas -/

theorem mem_dedupFirstAux (a : String) :
    ∀ (l seen : List String), a ∈ dedupFirstAux seen l ↔ a ∈ l ∧ a ∉ seen
  | [], seen => by simp [dedupFirstAux]
  | x :: xs, seen => by
    by_cases h : x ∈ seen
    · rw [dedupFirstAux, if_pos h, mem_dedupFirstAux a xs seen]
      simp only [List.mem_cons]
      constructor
      · exact fun ⟨h1, h2⟩ => ⟨Or.inr h1, h2⟩
      · rintro ⟨h1 | h1, h2⟩
        · exact absurd (h1 ▸ h) h2
        · exact ⟨h1, h2⟩
    · rw [dedupFirstAux, if_neg h]
      simp only [mem_dedupFirstAux a xs (x :: seen), List.mem_cons]
      constructor
      · rintro (rfl | ⟨h1, h2⟩)
        · exact ⟨Or.inl rfl, h⟩
        · exact ⟨Or.inr h1, fun hs => h2 (Or.inr hs)⟩
      · rintro ⟨rfl | h1, h2⟩
        · exact Or.inl rfl
        · by_cases hax : a = x
          · exact Or.inl hax
          · exact Or.inr ⟨h1, fun hs => hs.elim hax h2⟩

theorem nodup_dedupFirstAux :
    ∀ (l seen : List String), (dedupFirstAux seen l).Nodup
  | [], _ => by simp [dedupFirstAux]
  | x :: xs, seen => by
    by_cases h : x ∈ seen
    · rw [dedupFirstAux, if_pos h]
      exact nodup_dedupFirstAux xs seen
    · rw [dedupFirstAux, if_neg h]
      refine List.nodup_cons.mpr ⟨?_, nodup_dedupFirstAux xs (x :: seen)⟩
      intro hx
      exact ((mem_dedupFirstAux x xs (x :: seen)).mp hx).2 (List.mem_cons_self x seen)

theorem mem_dedupFirst {a : String} {l : List String} :
    a ∈ dedupFirst l ↔ a ∈ l := by
  rw [dedupFirst, mem_dedupFirstAux]
  simp

theorem nodup_dedupFirst (l : List String) : (dedupFirst l).Nodup :=
  nodup_dedupFirstAux l []

theorem count_dedupFirst (a : String) (l : List String) :
    (dedupFirst l).count a = if a ∈ l then 1 else 0 := by
  by_cases h : a ∈ l
  · rw [if_pos h]
    exact List.count_eq_one_of_mem (nodup_dedupFirst l) (mem_dedupFirst.mpr h)
  · rw [if_neg h]
    exact List.count_eq_zero.mpr fun hmem => h (mem_dedupFirst.mp hmem)

/-! ### Conflict-detection lemmas -/

theorem mem_inBatchDups {a : String} {lowers : List String} :
    a ∈ inBatchDups lowers ↔ a ∈ lowers ∧ lowers.count a > 1 := by
  rw [inBatchDups, List.mem_filter, mem_dedupFirst]
  simp

theorem inBatchDups_eq_nil_of_nodup {lowers : List String}
    (h : lowers.Nodup) : inBatchDups lowers = [] := by
  rw [inBatchDups]
  rw [List.filter_eq_nil_iff]
  intro a _
  have := List.nodup_iff_count_le_one.mp h a
  simp only [gt_iff_lt, decide_eq_true_eq]
  omega

theorem existingLowers_eq_nil {store : List WordRec} {lowers : List String}
    (h : ∀ r ∈ store, r.wordLower ∉ lowers) :
    existingLowers store lowers = [] := by
  rw [existingLowers]
  have hf : store.filter (fun r => decide (r.wordLower ∈ lowers)) = [] := by
    rw [List.filter_eq_nil_iff]
    intro r hr
    simp [h r hr]
  rw [hf]
  rfl

theorem lowers_eq_map {words : Option (List JSVal)} :
    (normalizeList words).2 = (normalizeList words).1.map jsLower := rfl

theorem jsLower_of_mem_lowers {words : Option (List JSVal)} {a : String}
    (h : a ∈ (normalizeList words).2) : jsLower a = a := by
  rw [lowers_eq_map] at h
  obtain ⟨b, _, rfl⟩ := List.mem_map.mp h
  exact jsLower_idem b

/-! ### Ordered-insert lemmas -/

theorem insertManyOrdered_eq : ∀ (store docs : List WordRec),
    insertManyOrdered store docs =
      (store ++ insertablePrefix store docs,
       if insertablePrefix store docs = docs then some docs.length else none)
  | store, [] => by simp [insertManyOrdered, insertablePrefix]
  | store, d :: ds => by
    cases hc : store.any (fun r => r.wordLower = d.wordLower) with
    | true =>
      rw [insertManyOrdered, insertablePrefix]
      simp [hc]
    | false =>
      rw [insertManyOrdered, insertablePrefix]
      simp only [hc, Bool.false_eq_true, if_false]
      rw [insertManyOrdered_eq (store ++ [d]) ds]
      by_cases hp : insertablePrefix (store ++ [d]) ds = ds
      · simp [hp, List.append_assoc]
      · simp [hp]

theorem insertablePrefix_eq_self : ∀ (store docs : List WordRec),
    (∀ d ∈ docs, ∀ r ∈ store, r.wordLower ≠ d.wordLower) →
    ((docs.map (fun d => d.wordLower)).Nodup) →
    insertablePrefix store docs = docs
  | _, [], _, _ => rfl
  | store, d :: ds, h1, h2 => by
    have hc : store.any (fun r => r.wordLower = d.wordLower) = false := by
      rw [List.any_eq_false]
      intro r hr
      simp only [decide_eq_true_eq]
      exact h1 d (List.mem_cons_self d ds) r hr
    rw [insertablePrefix]
    simp only [hc, Bool.false_eq_true, if_false]
    have hhead : d.wordLower ∉ ds.map (fun d => d.wordLower) :=
      (List.nodup_cons.mp h2).1
    refine congrArg (d :: ·) (insertablePrefix_eq_self (store ++ [d]) ds ?_ ?_)
    · intro d' hd' r hr
      rcases List.mem_append.mp hr with hr | hr
      · exact h1 d' (List.mem_cons_of_mem d hd') r hr
      · rcases List.mem_singleton.mp hr with rfl
        intro he
        exact hhead (he ▸ List.mem_map_of_mem (fun d => d.wordLower) hd')
    · exact (List.nodup_cons.mp h2).2

theorem insertMany_success {store docs : List WordRec}
    (h1 : ∀ d ∈ docs, ∀ r ∈ store, r.wordLower ≠ d.wordLower)
    (h2 : (docs.map (fun d => d.wordLower)).Nodup) :
    insertManyOrdered store docs = (store ++ docs, some docs.length) := by
  rw [insertManyOrdered_eq, insertablePrefix_eq_self store docs h1 h2, if_pos rfl]

/-! ### Sorting lemmas -/

theorem mem_insertSorted {α : Type} (le : α → α → Bool) (x a : α) :
    ∀ l : List α, a ∈ insertSorted le x l ↔ a = x ∨ a ∈ l
  | [] => by simp [insertSorted]
  | y :: ys => by
    rw [insertSorted]
    by_cases h : le x y = true
    · rw [if_pos h]
      simp
    · rw [if_neg h]
      rw [List.mem_cons, mem_insertSorted le x a ys, List.mem_cons]
      tauto

theorem pairwise_insertSorted {α : Type} {le : α → α → Bool}
    (htot : ∀ a b, le a b = true ∨ le b a = true)
    (htrans : ∀ a b c, le a b = true → le b c = true → le a c = true) (x : α) :
    ∀ l : List α, l.Pairwise (fun a b => le a b = true) →
      (insertSorted le x l).Pairwise (fun a b => le a b = true)
  | [], _ => List.pairwise_singleton _ x
  | y :: ys, h => by
    rw [insertSorted]
    rcases List.pairwise_cons.mp h with ⟨hy, hys⟩
    by_cases hxy : le x y
    · rw [if_pos hxy]
      refine List.pairwise_cons.mpr ⟨?_, h⟩
      intro b hb
      rcases List.mem_cons.mp hb with rfl | hb
      · exact hxy
      · exact htrans x y b hxy (hy b hb)
    · rw [if_neg hxy]
      refine List.pairwise_cons.mpr ⟨?_, pairwise_insertSorted htot htrans x ys hys⟩
      intro b hb
      rcases (mem_insertSorted le x b ys).mp hb with rfl | hb
      · exact (htot b y).resolve_left (by simpa using hxy)
      · exact hy b hb

theorem pairwise_sortBy {α : Type} {le : α → α → Bool}
    (htot : ∀ a b, le a b = true ∨ le b a = true)
    (htrans : ∀ a b c, le a b = true → le b c = true → le a c = true) :
    ∀ l : List α, (sortBy le l).Pairwise (fun a b => le a b = true)
  | [] => List.Pairwise.nil
  | x :: xs =>
    pairwise_insertSorted htot htrans x (sortBy le xs)
      (pairwise_sortBy htot htrans xs)

theorem mem_sortBy {α : Type} (le : α → α → Bool) (a : α) :
    ∀ l : List α, a ∈ sortBy le l ↔ a ∈ l
  | [] => Iff.rfl
  | x :: xs => by
    rw [sortBy, mem_insertSorted le x a (sortBy le xs), mem_sortBy le a xs,
      List.mem_cons]

/-! ### Handler-path lemmas -/

theorem normalizeList_getD (body : Option (List JSVal)) :
    normalizeList (some (body.getD [])) = normalizeList body := by
  cases body <;> rfl

theorem validateWords_invalid (store : List WordRec) {words : Option (List JSVal)}
    (h : (normalizeList words).1.length ≠ 10) :
    validateWords store words =
      .invalid 400 (countMsg (normalizeList words).1.length) (conflictsObj [] []) := by
  simp only [validateWords]
  rw [if_pos h]

theorem validateWords_valid {store : List WordRec} {words : Option (List JSVal)}
    (hlen : (normalizeList words).1.length = 10)
    (hnodup : ((normalizeList words).2).Nodup)
    (hstore : ∀ r ∈ store, r.wordLower ∉ (normalizeList words).2) :
    validateWords store words =
      .valid (normalizeList words).1 (normalizeList words).2 (conflictsObj [] []) := by
  simp only [validateWords]
  rw [if_neg (fun hne => hne hlen)]
  rw [existingLowers_eq_nil hstore, inBatchDups_eq_nil_of_nodup hnodup]
  rw [if_pos ⟨rfl, rfl⟩]

theorem validateWords_conflict {store : List WordRec} {words : Option (List JSVal)}
    (hlen : (normalizeList words).1.length = 10)
    (hne : ¬((existingLowers store (normalizeList words).2).length = 0 ∧
             (inBatchDups (normalizeList words).2).length = 0)) :
    validateWords store words =
      .conflict (conflictsObj (existingLowers store (normalizeList words).2)
        (inBatchDups (normalizeList words).2)) := by
  simp only [validateWords]
  rw [if_neg (fun h => h hlen), if_neg hne]

theorem mkDocs_map_wordLower (user : String) (now : Nat) (cleaned : List String) :
    (mkDocs user now cleaned).map (fun d => d.wordLower) = cleaned.map jsLower := by
  simp [mkDocs, List.map_map]

theorem mkDocs_length (user : String) (now : Nat) (cleaned : List String) :
    (mkDocs user now cleaned).length = cleaned.length := List.length_map cleaned _

theorem mkDocs_insert_hyps (user : String) (now : Nat)
    {store : List WordRec} {words : Option (List JSVal)}
    (hnodup : ((normalizeList words).2).Nodup)
    (hstore : ∀ r ∈ store, r.wordLower ∉ (normalizeList words).2) :
    (∀ d ∈ mkDocs user now (normalizeList words).1, ∀ r ∈ store,
        r.wordLower ≠ d.wordLower) ∧
    ((mkDocs user now (normalizeList words).1).map (fun d => d.wordLower)).Nodup := by
  constructor
  · intro d hd r hr
    obtain ⟨w, hw, rfl⟩ := List.mem_map.mp hd
    intro he
    exact hstore r hr (by
      rw [lowers_eq_map]
      exact he ▸ List.mem_map_of_mem jsLower hw)
  · rw [mkDocs_map_wordLower, ← lowers_eq_map]
    exact hnodup

theorem postWords_v2_clean {user : String} {now : Nat}
    {store storeIns : List WordRec} {words : Option (List JSVal)}
    (hlen : (normalizeList words).1.length = 10)
    (hnodup : ((normalizeList words).2).Nodup)
    (hstore : ∀ r ∈ store, r.wordLower ∉ (normalizeList words).2) :
    postWords_v2 "" user now store storeIns words =
      (match insertManyOrdered storeIns (mkDocs user now (normalizeList words).1) with
       | (s', some n) => (⟨200, none, none, none, none, some n⟩, s')
       | (s', none) =>
         (⟨409, none, some "One or more words already exist", none,
           some (conflictsObj
             ((s'.filter (fun r => r.wordLower ∈ (normalizeList words).2)).map
               (fun d => d.wordLower)) []), none⟩, s')) := by
  simp only [postWords_v2, normalizeList_getD]
  rw [if_neg (fun hne => hne hlen)]
  rw [existingLowers_eq_nil hstore, inBatchDups_eq_nil_of_nodup hnodup]
  rw [if_neg (by decide : ¬(jsLower "" = "validate"))]
  rw [if_neg (by simp)]

theorem postWords_v1_valid {user : String} {now : Nat}
    {store storeIns : List WordRec} {words : Option (List JSVal)}
    (hlen : (normalizeList words).1.length = 10)
    (hnodup : ((normalizeList words).2).Nodup)
    (hstore : ∀ r ∈ store, r.wordLower ∉ (normalizeList words).2) :
    postWords_v1 user now store storeIns words =
      (match insertManyOrdered storeIns (mkDocs user now (normalizeList words).1) with
       | (s', some n) => (⟨200, none, none, none, none, some n⟩, s')
       | (s', none) =>
         (⟨409, none, some "One or more words already exist", none, none, none⟩, s')) := by
  simp only [postWords_v1]
  rw [validateWords_valid hlen hnodup hstore]

/-! ### Claim C2 -/

/-- Claim C2 as stated is false for v1's submit endpoint: a 9-entry batch is
rejected, but with status 409, the generic conflict message and no mention
of the actual count 9 (the `status`/`error` computed by `validateWords` are
discarded by the submit handler). -/
theorem c2_counterexample :
    postWords_v1 "u1" 0 [] [] (some nineWords) =
      (⟨409, none, some "Conflicts found. Fix duplicates before submitting.",
        none, some ⟨[], []⟩, none⟩, []) ∧
    (postWords_v1 "u1" 0 [] [] (some nineWords)).1.error ≠ some (countMsg 9) ∧
    (postWords_v1 "u1" 0 [] [] (some nineWords)).1.status ≠ 400 := by
  decide

/-- Claim C2, amended: when the cleaned list does not have exactly 10
entries, `validateWords`, v1's Validate and v2's endpoint (either action)
fail immediately with the count-mismatch error carrying the actual cleaned
count and an empty conflict report, and no store write happens; v1's Submit
also rejects immediately with an empty conflict report and no store write,
but with a generic 409 conflict response that does not carry the count. -/
theorem c2_amended (store storeIns : List WordRec) (words : Option (List JSVal))
    (user action : String) (now : Nat)
    (h : (normalizeList words).1.length ≠ 10) :
    validateWords store words =
      .invalid 400 (countMsg (normalizeList words).1.length) (conflictsObj [] []) ∧
    postValidate_v1 store words =
      ⟨400, some false, some (countMsg (normalizeList words).1.length), none,
        some (conflictsObj [] []), none⟩ ∧
    postWords_v2 action user now store storeIns words =
      (⟨400, none, some (countMsg (normalizeList words).1.length), none,
        some (conflictsObj [] []), none⟩, storeIns) ∧
    postWords_v1 user now store storeIns words =
      (⟨409, none, some "Conflicts found. Fix duplicates before submitting.",
        none, some (conflictsObj [] []), none⟩, storeIns) := by
  have hv := validateWords_invalid store h
  refine ⟨hv, ?_, ?_, ?_⟩
  · rw [postValidate_v1, hv]
  · simp only [postWords_v2, normalizeList_getD]
    rw [if_pos h]
  · simp only [postWords_v1]
    rw [hv]

/-- Witness for C2 (amended): the concrete nine-word batch of scenario B. -/
theorem c2_amended_witness :
    postWords_v2 "" "u1" 0 [] [] (some nineWords) =
      (⟨400, none, some (countMsg (normalizeList (some nineWords)).1.length),
        none, some (conflictsObj [] []), none⟩, []) ∧
    postValidate_v1 [] (some nineWords) =
      ⟨400, some false, some (countMsg 9), none, some (conflictsObj [] []),
        none⟩ :=
  ⟨(c2_amended [] [] (some nineWords) "u1" "" 0 (by decide)).2.2.1,
   ((c2_amended [] [] (some nineWords) "u1" "" 0 (by decide)).2.1).trans
     (by decide)⟩

/-! ### Claim C3 -/

/-- Claim C3: for a batch of exactly 10 cleaned entries with no two entries
normalizing to the same lowercase form and no normalized form in the store,
Validate (v1 and v2) reports no conflicts, and Submit (v1 and v2) persists
exactly the 10 documents built from the cleaned entries — in input order,
attributed to the requesting user, with original casing and the lowercase
form — appended to the store, answering `{added: 10}`. -/
theorem c3 (user : String) (now : Nat) (store : List WordRec)
    (words : Option (List JSVal))
    (hlen : (normalizeList words).1.length = 10)
    (hnodup : ((normalizeList words).2).Nodup)
    (hstore : ∀ r ∈ store, r.wordLower ∉ (normalizeList words).2) :
    postValidate_v1 store words =
      ⟨200, some true, none, some "No conflicts", some (conflictsObj [] []), none⟩ ∧
    postWords_v2 "validate" user now store store words =
      (⟨200, some true, none, some "No conflicts", some (conflictsObj [] []),
        none⟩, store) ∧
    postWords_v1 user now store store words =
      (⟨200, none, none, none, none, some 10⟩,
        store ++ mkDocs user now (normalizeList words).1) ∧
    postWords_v2 "" user now store store words =
      (⟨200, none, none, none, none, some 10⟩,
        store ++ mkDocs user now (normalizeList words).1) := by
  obtain ⟨h1, h2⟩ := mkDocs_insert_hyps user now hnodup hstore
  have hins := insertMany_success h1 h2
  have hlen10 : (mkDocs user now (normalizeList words).1).length = 10 := by
    rw [mkDocs_length]
    exact hlen
  refine ⟨?_, ?_, ?_, ?_⟩
  · rw [postValidate_v1, validateWords_valid hlen hnodup hstore]
  · simp only [postWords_v2, normalizeList_getD]
    rw [if_neg (fun hne => hne hlen)]
    rw [existingLowers_eq_nil hstore, inBatchDups_eq_nil_of_nodup hnodup]
    rw [if_pos (by decide : jsLower "validate" = "validate")]
    rw [if_pos ⟨rfl, rfl⟩]
  · rw [postWords_v1_valid hlen hnodup hstore, hins, hlen10]
  · rw [postWords_v2_clean hlen hnodup hstore, hins, hlen10]

/-- Witness for C3: concrete scenario A of the specification. -/
theorem c3_witness :
    postWords_v1 "u1" 100 [] [] (some tenWords) =
      (⟨200, none, none, none, none, some 10⟩,
        mkDocs "u1" 100 (normalizeList (some tenWords)).1) :=
  (c3 "u1" 100 [] (some tenWords) (by decide) (by decide) (by decide)).2.2.1

/-! ### Claim C1 -/

theorem existingLowers_ne_nil {store : List WordRec} {lowers : List String}
    (h : ∃ r ∈ store, r.wordLower ∈ lowers) :
    existingLowers store lowers ≠ [] := by
  obtain ⟨r, hr, hl⟩ := h
  intro hnil
  have hmem : jsLower r.wordLower ∈ existingLowers store lowers := by
    rw [existingLowers, mem_dedupFirst]
    exact List.mem_map_of_mem _ (List.mem_filter.mpr ⟨hr, by simp [hl]⟩)
  rw [hnil] at hmem
  exact absurd hmem (List.not_mem_nil _)

/-- Claim C1 as stated is false: a batch that passes the count gate and the
pre-insert conflict check (pre-check store is empty) hits a uniqueness
violation during `insertMany` (another writer inserted "cat" in between),
yet one new record of this batch — the "Dog" document inserted before the
violation — remains in the store, not zero. -/
theorem c1_counterexample :
    validateWords [] (some raceWords) =
      .valid (normalizeList (some raceWords)).1 (normalizeList (some raceWords)).2
        (conflictsObj [] []) ∧
    (postWords_v2 "" "u1" 100 [] [catRec] (some raceWords)).1.status = 409 ∧
    (postWords_v2 "" "u1" 100 [] [catRec] (some raceWords)).1.added = none ∧
    ((postWords_v2 "" "u1" 100 [] [catRec] (some raceWords)).2.filter
      (fun r => r.userId == "u1")).length = 1 := by
  decide

/-- Claim C1, amended: for a batch that passes the count gate and the
pre-insert conflict check, Submit appends exactly the prefix of the batch's
documents that precedes the first uniqueness violation (all 10 of them, with
`{added: 10}`, when no violation occurs); inserts after the first violating
document are aborted, but documents inserted before it remain.  For every
batch containing a normalized word already in the store at pre-check time,
Submit (v1 and v2, race-free) persists zero new records. -/
theorem c1_amended (user : String) (now : Nat) (store storeIns : List WordRec)
    (words : Option (List JSVal)) :
    ((normalizeList words).1.length = 10 →
     ((normalizeList words).2).Nodup →
     (∀ r ∈ store, r.wordLower ∉ (normalizeList words).2) →
       (postWords_v2 "" user now store storeIns words).2 =
         storeIns ++ insertablePrefix storeIns (mkDocs user now (normalizeList words).1) ∧
       (insertablePrefix storeIns (mkDocs user now (normalizeList words).1) =
           mkDocs user now (normalizeList words).1 →
         postWords_v2 "" user now store storeIns words =
           (⟨200, none, none, none, none, some 10⟩,
             storeIns ++ mkDocs user now (normalizeList words).1))) ∧
    ((∃ r ∈ store, r.wordLower ∈ (normalizeList words).2) →
       (postWords_v2 "" user now store store words).2 = store ∧
       (postWords_v1 user now store store words).2 = store) := by
  constructor
  · intro hlen hnodup hstore
    rw [postWords_v2_clean hlen hnodup hstore]
    rw [insertManyOrdered_eq storeIns (mkDocs user now (normalizeList words).1)]
    by_cases hp : insertablePrefix storeIns (mkDocs user now (normalizeList words).1) =
        mkDocs user now (normalizeList words).1
    · rw [if_pos hp]
      refine ⟨rfl, fun _ => ?_⟩
      rw [hp, mkDocs_length, hlen]
    · rw [if_neg hp]
      exact ⟨rfl, fun h => absurd h hp⟩
  · intro hex
    by_cases hlen : (normalizeList words).1.length = 10
    · have hne : ¬((existingLowers store (normalizeList words).2).length = 0 ∧
          (inBatchDups (normalizeList words).2).length = 0) := by
        rintro ⟨h0, _⟩
        exact existingLowers_ne_nil hex (List.length_eq_zero.mp h0)
      constructor
      · simp only [postWords_v2, normalizeList_getD]
        rw [if_neg (fun hno => hno hlen)]
        rw [if_neg (by decide : ¬(jsLower "" = "validate"))]
        rw [if_pos (Or.inl (Nat.pos_of_ne_zero
          (fun h0 => existingLowers_ne_nil hex (List.length_eq_zero.mp h0))))]
      · simp only [postWords_v1]
        rw [validateWords_conflict hlen hne]
    · constructor
      · simp only [postWords_v2, normalizeList_getD]
        rw [if_pos hlen]
      · simp only [postWords_v1]
        rw [validateWords_invalid store hlen]

/-- Witness for C1 (amended): the race scenario (prefix persisted) and the
pre-existing-conflict scenario (zero new records). -/
theorem c1_amended_witness :
    (postWords_v2 "" "u1" 100 [] [catRec] (some raceWords)).2 =
      [catRec] ++ insertablePrefix [catRec]
        (mkDocs "u1" 100 (normalizeList (some raceWords)).1) ∧
    (postWords_v2 "" "u1" 100 [catRec] [catRec] (some tenWords)).2 = [catRec] :=
  ⟨((c1_amended "u1" 100 [] [catRec] (some raceWords)).1
      (by decide) (by decide) (by decide)).1,
   ((c1_amended "u1" 100 [catRec] [catRec] (some tenWords)).2 (by decide)).1⟩

/-! ### Claim C4 -/

/-- Claim C4 as stated is false for v1's submit endpoint: after a clean
pre-check (empty pre-check store) and a duplicate-key failure during
insertion, v1 answers 409 "One or more words already exist" with NO
conflict report (`conflicts` is absent) and performs no re-query. -/
theorem c4_counterexample :
    validateWords [] (some raceWords) =
      .valid (normalizeList (some raceWords)).1 (normalizeList (some raceWords)).2
        (conflictsObj [] []) ∧
    (postWords_v1 "u1" 100 [] [catRec] (some raceWords)).1 =
      ⟨409, none, some "One or more words already exist", none, none, none⟩ := by
  decide

/-- Claim C4, amended: v2's Submit (the router mounted by the server entry)
catches the duplicate-key failure, re-queries the store for the now-current
set of normalized words of the batch that are present, and answers 409 with
that conflict report — never without one; v1's Submit instead returns the
bare 409 of the counterexample. -/
theorem c4_amended (user : String) (now : Nat) (store storeIns : List WordRec)
    (words : Option (List JSVal))
    (hlen : (normalizeList words).1.length = 10)
    (hnodup : ((normalizeList words).2).Nodup)
    (hstore : ∀ r ∈ store, r.wordLower ∉ (normalizeList words).2)
    (hfail : (insertManyOrdered storeIns (mkDocs user now (normalizeList words).1)).2 = none) :
    postWords_v2 "" user now store storeIns words =
      (⟨409, none, some "One or more words already exist", none,
        some (conflictsObj
          (((insertManyOrdered storeIns (mkDocs user now (normalizeList words).1)).1.filter
            (fun r => r.wordLower ∈ (normalizeList words).2)).map
            (fun d => d.wordLower)) []),
        none⟩,
       (insertManyOrdered storeIns (mkDocs user now (normalizeList words).1)).1) ∧
    (postWords_v2 "" user now store storeIns words).1.conflicts ≠ none := by
  rw [postWords_v2_clean hlen hnodup hstore]
  rcases hio : insertManyOrdered storeIns (mkDocs user now (normalizeList words).1)
    with ⟨s', opt⟩
  have hopt : opt = none := by
    rw [hio] at hfail
    exact hfail
  subst hopt
  exact ⟨rfl, by simp⟩

/-- Witness for C4 (amended): the race scenario against v2. -/
theorem c4_amended_witness :
    (postWords_v2 "" "u1" 100 [] [catRec] (some raceWords)).1.conflicts ≠ none :=
  (c4_amended "u1" 100 [] [catRec] (some raceWords)
    (by decide) (by decide) (by decide) (by decide)).2

/-! ### Claim C5 -/

/-- Claim C5 as stated is false: for a 10-entry batch containing "cat" twice
while the store also holds a record with normalized text "cat", the produced
conflict report carries "cat" in BOTH the store set and the in-batch set —
the two sets are not disjoint. -/
theorem c5_counterexample :
    "cat" ∈ (validateWords [catRec] (some dupWords)).conflicts.db ∧
    "cat" ∈ (validateWords [catRec] (some dupWords)).conflicts.inBatch := by
  decide

/-- Claim C5, amended: the two sets of every produced conflict report are
each deduplicated (no string repeats within a set), but they are not
necessarily disjoint — a normalized form that is both present in the store
and duplicated within the batch appears in both sets. -/
theorem c5_amended (store : List WordRec) (words : Option (List JSVal))
    (db inBatch : List String) :
    ((conflictsObj db inBatch).db.Nodup ∧
     (conflictsObj db inBatch).inBatch.Nodup) ∧
    ((validateWords store words).conflicts.db.Nodup ∧
     (validateWords store words).conflicts.inBatch.Nodup) := by
  refine ⟨⟨nodup_dedupFirst _, nodup_dedupFirst _⟩, ?_⟩
  simp only [validateWords]
  split
  · exact ⟨nodup_dedupFirst _, nodup_dedupFirst _⟩
  · split
    · exact ⟨nodup_dedupFirst _, nodup_dedupFirst _⟩
    · exact ⟨nodup_dedupFirst _, nodup_dedupFirst _⟩

/-! ### Claim C6 -/

/-- Claim C6: for every batch of 10 cleaned entries in which at least two
entries normalize to the same lowercase form `w`, the in-batch set of the
produced conflict report contains `w` exactly once, however many times it
repeats. -/
theorem c6 (store : List WordRec) (words : Option (List JSVal)) (w : String)
    (hlen : (normalizeList words).1.length = 10)
    (hk : 2 ≤ ((normalizeList words).2).count w) :
    ((validateWords store words).conflicts).inBatch.count w = 1 := by
  have hw : w ∈ (normalizeList words).2 := by
    by_contra hnm
    rw [List.count_eq_zero.mpr hnm] at hk
    omega
  have hdup : w ∈ inBatchDups (normalizeList words).2 :=
    mem_inBatchDups.mpr ⟨hw, by omega⟩
  have hne : ¬((existingLowers store (normalizeList words).2).length = 0 ∧
      (inBatchDups (normalizeList words).2).length = 0) := by
    rintro ⟨_, h0⟩
    rw [List.length_eq_zero.mp h0] at hdup
    exact absurd hdup (List.not_mem_nil w)
  rw [validateWords_conflict hlen hne]
  show (dedupFirst ((inBatchDups (normalizeList words).2).map jsLower)).count w = 1
  have hlw : jsLower w = w := jsLower_of_mem_lowers hw
  have hmem : w ∈ (inBatchDups (normalizeList words).2).map jsLower := by
    have := List.mem_map_of_mem jsLower hdup
    rwa [hlw] at this
  rw [count_dedupFirst, if_pos hmem]

/-- Witness for C6: "Apple" and "apple" in one batch yield the in-batch
conflict set entry "apple" exactly once. -/
theorem c6_witness :
    ((validateWords []
      (some [W "Apple", W "apple", W "Sun", W "Sky", W "Red", W "Blue",
             W "Fast", W "Slow", W "Up", W "Down"])).conflicts).inBatch.count
      "apple" = 1 :=
  c6 [] (some [W "Apple", W "apple", W "Sun", W "Sky", W "Red", W "Blue",
    W "Fast", W "Slow", W "Up", W "Down"]) "apple" (by decide) (by decide)

/-! ### Claim C7 -/

/-- Claim C7 as stated is false: the element `false` coerces to the nonempty
text "false", so under "coerce, trim, discard empties" it would be kept (as
`specNormalize` does), but `normalizeList` — which evaluates
`String(s || "")` — replaces every falsy element by the empty string and
discards it. -/
theorem c7_counterexample :
    (normalizeList (some [JSVal.bool false])).1 = [] ∧
    jsTrim (jsToString (JSVal.bool false)) = "false" ∧
    specNormalize [JSVal.bool false] = (["false"], ["false"]) := by
  decide

/-- Claim C7, amended: `normalizeList` is a pure function that replaces
falsy elements (empty strings, 0, false, null, undefined) by the empty
string and otherwise coerces the element to text; it then trims and
discards entries that become empty, yielding the cleaned list in original
order and casing and the parallel list of its lowercased forms. -/
theorem c7_amended (items : List JSVal) :
    (normalizeList (some items)).1 =
      (items.map (fun v => jsTrim (coerceOrEmpty v))).filter (fun s => s ≠ "") ∧
    (normalizeList (some items)).2 = (normalizeList (some items)).1.map jsLower ∧
    (∀ s ∈ (normalizeList (some items)).1, s ≠ "") ∧
    (∀ v, jsTruthy v = true → coerceOrEmpty v = jsToString v) ∧
    (∀ v, jsTruthy v = false → coerceOrEmpty v = "") ∧
    normalizeList none = ([], []) := by
  refine ⟨rfl, rfl, ?_, ?_, ?_, rfl⟩
  · intro s hs
    have := (List.mem_filter.mp hs).2
    simpa using this
  · intro v hv
    rw [coerceOrEmpty, if_pos hv]
  · intro v hv
    rw [coerceOrEmpty, if_neg (by simp [hv])]

/-- Witness for C7 (amended): a batch with a blank-padded string, a null
and a whitespace-only string cleans to the single trimmed entry. -/
theorem c7_amended_witness :
    (normalizeList (some [W " Hi ", JSVal.nullv, W "  "])).1 =
      ([W " Hi ", JSVal.nullv, W "  "].map
        (fun v => jsTrim (coerceOrEmpty v))).filter (fun s => s ≠ "") ∧
    "Hi" ≠ "" :=
  ⟨(c7_amended [W " Hi ", JSVal.nullv, W "  "]).1,
   (c7_amended [W " Hi ", JSVal.nullv, W "  "]).2.2.1 "Hi" (by decide)⟩

/-! ### Claim C8 -/

/-- Claim C8: Validate is deterministic in the batch and store state — its
path performs no store write (the final store equals the initial one), so
running v2's validate action twice in succession with the same batch and no
intervening writes returns the identical response, conflict report
included.  (v1's `POST /validate` contains no write call at all: its model
`postValidate_v1` returns only a response.) -/
theorem c8 (store : List WordRec) (words : Option (List JSVal))
    (user : String) (now : Nat) :
    (postWords_v2 "validate" user now store store words).2 = store ∧
    postWords_v2 "validate" user now store
        ((postWords_v2 "validate" user now store store words).2) words =
      postWords_v2 "validate" user now store store words := by
  have hst : ∀ storeIns : List WordRec,
      (postWords_v2 "validate" user now store storeIns words).2 = storeIns := by
    intro storeIns
    simp only [postWords_v2]
    split
    · rfl
    · rw [if_pos (by decide : jsLower "validate" = "validate")]
      split <;> rfl
  refine ⟨hst store, ?_⟩
  rw [hst store]

/-! ### Listing lemmas -/

theorem sortLE_total (spec : SortSpec) (a b : WordRec) :
    sortLE spec a b = true ∨ sortLE spec b a = true := by
  cases spec <;> simp only [sortLE, decide_eq_true_eq] <;>
    first
    | exact Nat.le_total _ _
    | exact le_total _ _

theorem sortLE_trans (spec : SortSpec) (a b c : WordRec) :
    sortLE spec a b = true → sortLE spec b c = true → sortLE spec a c = true := by
  cases spec <;> simp only [sortLE, decide_eq_true_eq] <;> intro h1 h2 <;>
    first
    | exact le_trans h1 h2
    | exact le_trans h2 h1

theorem getWordsDocs_length (spec : SortSpec) (pred : WordRec → Bool)
    (cap : Nat) (store : List WordRec) :
    (getWordsDocs spec pred cap store).length ≤ cap := by
  rw [getWordsDocs]
  exact List.length_take_le _ _

theorem mem_getWordsDocs {spec : SortSpec} {pred : WordRec → Bool}
    {cap : Nat} {store : List WordRec} {d : WordRec}
    (h : d ∈ getWordsDocs spec pred cap store) : pred d = true := by
  rw [getWordsDocs] at h
  have hs := List.mem_of_mem_take h
  exact (List.mem_filter.mp ((mem_sortBy _ _ _).mp hs)).2

theorem pairwise_getWordsDocs (spec : SortSpec) (pred : WordRec → Bool)
    (cap : Nat) (store : List WordRec) :
    (getWordsDocs spec pred cap store).Pairwise
      (fun a b => sortLE spec a b = true) :=
  List.Pairwise.sublist (List.take_sublist _ _)
    (pairwise_sortBy (sortLE_total spec) (sortLE_trans spec) _)

theorem annLE_attachOwner (spec : SortSpec) (owners : List UserRec)
    (a b : WordRec) :
    annLE spec (attachOwner owners a) (attachOwner owners b) = sortLE spec a b := by
  cases spec <;> rfl

theorem attachOwner_unknown {users : List UserRec} {p : UserRec → Bool}
    {d : WordRec} (h : ∀ usr ∈ users, usr.id ≠ d.userId) :
    (attachOwner (users.filter p) d).ownerName = "Unknown" := by
  have hfind : (users.filter p).find? (fun usr => decide (usr.id = d.userId)) = none :=
    List.find?_eq_none.mpr fun x hx => by
      simp [h x (List.mem_of_mem_filter hx)]
  have he : ownerEntry (users.filter p) d.userId = "" := by
    rw [ownerEntry, hfind]
  show (if ownerEntry (users.filter p) d.userId = "" then "Unknown"
    else ownerEntry (users.filter p) d.userId) = "Unknown"
  rw [he]
  simp

theorem mineFilterPred_spec {u : String} {fromD toD : Option Nat} {q : String}
    {r : WordRec} (h : mineFilterPred u fromD toD q r = true) :
    r.userId = u ∧ (∀ f, fromD = some f → f ≤ r.addedAt) ∧
    (∀ t, toD = some t → r.addedAt ≤ t) ∧
    (q = "" ∨ strContainsCI r.wordLower q = true) := by
  simp only [mineFilterPred, Bool.and_eq_true, Bool.or_eq_true, beq_iff_eq,
    decide_eq_true_eq] at h
  obtain ⟨⟨⟨h1, h2⟩, h3⟩, h4⟩ := h
  refine ⟨h1, ?_, ?_, h4⟩
  · intro f hf
    rw [hf] at h2
    simpa using h2
  · intro t ht
    rw [ht] at h3
    simpa using h3

theorem globalFilterPred_spec {q : String} {r : WordRec}
    (h : globalFilterPred q r = true) :
    q = "" ∨ strContainsCI r.wordLower q = true := by
  rw [globalFilterPred] at h
  simpa using h

theorem getWords_pairwise (users : List UserRec) (store : List WordRec)
    (u : String) (sortP : Option String) (fromD toD : Option Nat) (q : String) :
    (getWords users store u sortP fromD toD q).1.Pairwise
      (fun a b => annLE (resolveSort (sortP.getD "date-desc")) a b = true) ∧
    (getWords users store u sortP fromD toD q).2.Pairwise
      (fun a b => annLE (resolveSort (sortP.getD "date-desc")) a b = true) := by
  simp only [getWords]
  constructor <;>
  · rw [List.pairwise_map]
    refine (pairwise_getWordsDocs _ _ _ _).imp ?_
    intro a b hab
    rw [annLE_attachOwner]
    exact hab

/-! ### Claim C9 -/

/-- Claim C9 as stated is false: the optional date-range filter is applied
only to the requester-scoped collection, not the global one.  With the
store holding one record of the requester dated 5 and `from = 10`, the
requester-scoped collection is empty while the global collection still
returns that record — the two collections are not filtered identically. -/
theorem c9_counterexample :
    (getWords [] [oldRec] "u1" none (some 10) none "").1 = [] ∧
    ((getWords [] [oldRec] "u1" none (some 10) none "").2).map
      (fun a => a.addedAt) = [5] ∧
    ¬(10 ≤ oldRec.addedAt) := by
  decide

/-- Claim C9, amended: the List operation returns the requester-scoped
collection (capped at 2000) and the global collection (capped at 5000),
both filtered by the same substring filter and sorted by the same sort key,
each record annotated with an owner label that falls back to "Unknown" when
no user record matches the owner; the optional date range, however, is
applied only to the requester-scoped collection. -/
theorem c9_amended (users : List UserRec) (store : List WordRec) (u : String)
    (sortP : Option String) (fromD toD : Option Nat) (q : String) :
    (getWords users store u sortP fromD toD q).1.length ≤ 2000 ∧
    (getWords users store u sortP fromD toD q).2.length ≤ 5000 ∧
    (∀ a ∈ (getWords users store u sortP fromD toD q).1,
      a.userId = u ∧ (∀ f, fromD = some f → f ≤ a.addedAt) ∧
      (∀ t, toD = some t → a.addedAt ≤ t) ∧
      (q = "" ∨ strContainsCI a.wordLower q = true)) ∧
    (∀ a ∈ (getWords users store u sortP fromD toD q).2,
      q = "" ∨ strContainsCI a.wordLower q = true) ∧
    (getWords users store u sortP fromD toD q).1.Pairwise
      (fun a b => annLE (resolveSort (sortP.getD "date-desc")) a b = true) ∧
    (getWords users store u sortP fromD toD q).2.Pairwise
      (fun a b => annLE (resolveSort (sortP.getD "date-desc")) a b = true) ∧
    (∀ a ∈ (getWords users store u sortP fromD toD q).1,
      (∀ usr ∈ users, usr.id ≠ a.userId) → a.ownerName = "Unknown") ∧
    (∀ a ∈ (getWords users store u sortP fromD toD q).2,
      (∀ usr ∈ users, usr.id ≠ a.userId) → a.ownerName = "Unknown") := by
  obtain ⟨hpw1, hpw2⟩ := getWords_pairwise users store u sortP fromD toD q
  refine ⟨?_, ?_, ?_, ?_, hpw1, hpw2, ?_, ?_⟩
  · simp only [getWords]
    rw [List.length_map]
    exact getWordsDocs_length _ _ _ _
  · simp only [getWords]
    rw [List.length_map]
    exact getWordsDocs_length _ _ _ _
  · simp only [getWords]
    intro a ha
    obtain ⟨d, hd, rfl⟩ := List.mem_map.mp ha
    exact mineFilterPred_spec (mem_getWordsDocs hd)
  · simp only [getWords]
    intro a ha
    obtain ⟨d, hd, rfl⟩ := List.mem_map.mp ha
    exact globalFilterPred_spec (mem_getWordsDocs hd)
  · simp only [getWords]
    intro a ha h
    obtain ⟨d, hd, rfl⟩ := List.mem_map.mp ha
    exact attachOwner_unknown h
  · simp only [getWords]
    intro a ha h
    obtain ⟨d, hd, rfl⟩ := List.mem_map.mp ha
    exact attachOwner_unknown h

/-- Witness for C9 (amended): the single-record store; the record's owner
has no user entry, so its label falls back to "Unknown". -/
theorem c9_amended_witness :
    (getWords [] [oldRec] "u1" (some "date-asc") none none "").2.length ≤ 5000 ∧
    Ann.ownerName ⟨"Old", "old", "u1", 5, "Unknown"⟩ = "Unknown" :=
  ⟨(c9_amended [] [oldRec] "u1" (some "date-asc") none none "").2.1,
   (c9_amended [] [oldRec] "u1" (some "date-asc") none none "").2.2.2.2.2.2.2
     ⟨"Old", "old", "u1", 5, "Unknown"⟩ (by decide) (by decide)⟩

/-! ### Claim C10 -/

/-- Claim C10: a List request whose sort parameter is absent or not one of
the recognized keys does not fail — both returned collections are ordered
newest-first (descending submission timestamp). -/
theorem c10 (users : List UserRec) (store : List WordRec) (u : String)
    (fromD toD : Option Nat) (q : String) (sortP : Option String)
    (h : ∀ s, sortP = some s →
      s ≠ "date-asc" ∧ s ≠ "alpha-asc" ∧ s ≠ "alpha-desc") :
    resolveSort (sortP.getD "date-desc") = SortSpec.dateDesc ∧
    (getWords users store u sortP fromD toD q).1.Pairwise
      (fun a b => b.addedAt ≤ a.addedAt) ∧
    (getWords users store u sortP fromD toD q).2.Pairwise
      (fun a b => b.addedAt ≤ a.addedAt) := by
  have hres : resolveSort (sortP.getD "date-desc") = SortSpec.dateDesc := by
    cases sortP with
    | none => decide
    | some s =>
      obtain ⟨h1, h2, h3⟩ := h s rfl
      simp only [Option.getD_some]
      rw [resolveSort, if_neg h1, if_neg h2, if_neg h3]
  obtain ⟨hpw1, hpw2⟩ := getWords_pairwise users store u sortP fromD toD q
  rw [hres] at hpw1 hpw2
  refine ⟨hres, hpw1.imp ?_, hpw2.imp ?_⟩ <;>
  · intro a b hab
    exact of_decide_eq_true hab

/-- Witness for C10: an unrecognized sort key on a two-record store. -/
theorem c10_witness :
    resolveSort ((some "bogus").getD "date-desc") = SortSpec.dateDesc ∧
    (getWords [] [oldRec, catRec] "u1" (some "bogus") none none "").2.Pairwise
      (fun a b => b.addedAt ≤ a.addedAt) :=
  ⟨(c10 [] [oldRec, catRec] "u1" none none "" (some "bogus") (fun s hs => by
      injection hs with he
      subst he
      exact ⟨by decide, by decide, by decide⟩)).1,
   (c10 [] [oldRec, catRec] "u1" none none "" (some "bogus") (fun s hs => by
      injection hs with he
      subst he
      exact ⟨by decide, by decide, by decide⟩)).2.2⟩

end AddTen
